import Mathlib

/-!
Verification of the dyff JSON report renderer and report filter
(`pkg/dyff/output_json.go` and the report filter file of the same package).

The development is a shallow embedding: every definition mirrors the Go
source line by line.  External collaborators (the `ytbx` path library, the
`neat` compact-JSON serializer, Go's `regexp` engine, base64 decoding and
hex dumping) are taken as parameters, since their code is outside this
repository.  Types of the repository that are declared outside the rendered
source files (the diff data model, `humanReadableType`, `pathToString`, the
detail-kind constants) are modelled from the specification and marked as
such in their doc comments.
-/

namespace Dyff

/-- Node kinds of `gopkg.in/yaml.v3` (`yamlv3.Node.Kind`). -/
inductive YamlKind where
  | documentNode
  | sequenceNode
  | mappingNode
  | scalarNode
  | aliasNode
  deriving DecidableEq, Repr

/-- A `yamlv3.Node`: kind, tag, scalar value and child content.
(Anchor/line/column fields are irrelevant to this package and omitted.) -/
inductive YamlNode where
  | mk (kind : YamlKind) (tag : String) (value : String) (content : List YamlNode)

/-- The `Kind` field of a node. -/
def YamlNode.kind : YamlNode → YamlKind
  | .mk k _ _ _ => k

/-- The `Tag` field of a node. -/
def YamlNode.tag : YamlNode → String
  | .mk _ t _ _ => t

/-- The `Value` field of a node. -/
def YamlNode.value : YamlNode → String
  | .mk _ _ v _ => v

/-- The `Content` field of a node. -/
def YamlNode.content : YamlNode → List YamlNode
  | .mk _ _ _ c => c

/-- Modelled from the spec: a `ytbx.Path` is opaque; "equality and prefix
relationships are defined by its canonical string form".  We keep exactly
that canonical string (the result of Go `Path.String()`). -/
structure PathT where
  str : String
  deriving DecidableEq, Repr

/-- Modelled from the spec: the closed detail-kind tag set of the dyff data
model (`ADDITION`, `REMOVAL`, `MODIFICATION`, `ORDERCHANGE` rune constants,
declared outside the rendered source).  `unsupported` models any other rune
reaching the renderer's default switch arm. -/
inductive DetailKind where
  | addition
  | removal
  | modification
  | orderchange
  | unsupported (c : Char)
  deriving DecidableEq, Repr

/-- Modelled from the spec: `string(detail.Kind)`, the kind tags
`"+" | "-" | "~" | "->"` of the output document. -/
def DetailKind.str : DetailKind → String
  | .addition => "+"
  | .removal => "-"
  | .modification => "~"
  | .orderchange => "->"
  | .unsupported c => String.mk [c]

/-- Modelled from the spec: a `Detail` is a kind plus two optional node
references `From` and `To` (a Go `*yamlv3.Node`, `none` for `nil`). -/
structure Detail where
  Kind : DetailKind
  From : Option YamlNode
  To : Option YamlNode

/-- Modelled from the spec: a `Diff` is an optional `Path` (`nil` only when
the whole document differs at the root) and an ordered list of details. -/
structure Diff where
  Path : Option PathT
  Details : List Detail

/-- Modelled from the spec: a `ytbx.InputFile`, of which only the list of
document roots matters to this package (`len(report.From.Documents)`). -/
structure InputFile where
  Documents : List YamlNode

/-- Modelled from the spec: a `Report` is the two compared documents plus
the ordered list of diffs discovered upstream. -/
structure Report where
  From : InputFile
  To : InputFile
  Diffs : List Diff

/-- External collaborators of the renderer, passed in as in the source they
are called through imported packages:
`toCompactJSON` is `neat.NewOutputProcessor(false, false, nil).ToCompactJSON`;
`base64Decode` is `base64.StdEncoding.DecodeString` (bytes as `List Nat`);
`hexDump` is `hex.Dump`;
`pathToStr` — modelled from the spec: the repository's `pathToString`
helper (declared outside the rendered source) rendering an optional path
with the `useGoPatchPaths` and `showPathRoot` flags. -/
structure Externals where
  toCompactJSON : YamlNode → Except String String
  base64Decode : String → Except String (List Nat)
  hexDump : List Nat → String
  pathToStr : Option PathT → Bool → Bool → String

/-- Modelled from the spec: the repository's `humanReadableType` (declared
outside the rendered source) maps a node to a fixed set of type labels
including at least `"string"` (plain scalar string) and `"binary"`
(base64-tagged scalar payload); an absent node is not a string or binary. -/
def humanReadableType (node : Option YamlNode) : String :=
  match node with
  | none => "<nil>"
  | some n =>
    match n.kind with
    | .scalarNode =>
      if n.tag == "!!binary" then "binary"
      else if n.tag == "!!str" then "string"
      else (n.tag.drop 2)
    | .sequenceNode => "list"
    | .mappingNode => "map"
    | .documentNode => "document"
    | .aliasNode => "alias"

/-! ## Report renderer (source: `pkg/dyff/output_json.go`) -/

/-- One rendered detail: `kind` plus the optional `addition` and `removal`
strings; the empty string stands for a field omitted by `omitempty`. -/
structure JSONDiffDetail where
  Kind : String
  Addition : String
  Removal : String
  deriving DecidableEq, Repr

/-- One rendered diff: the rendered path string and its details. -/
structure JSONDiff where
  Path : String
  Details : List JSONDiffDetail
  deriving DecidableEq, Repr

/-- The summary: the number of changes. -/
structure JSONDiffSummary where
  Changes : Nat
  deriving DecidableEq, Repr

/-- The serializable report document: summary plus differences. -/
structure JSONReportSpec where
  Summary : JSONDiffSummary
  Differences : List JSONDiff
  deriving DecidableEq, Repr

/-- The `JSONReport` wrapper: the report plus rendering flags.  (The unused
`MinorChangeThreshold` float field is irrelevant to this file and omitted.) -/
structure JSONReport where
  toReport : Report
  NoTableStyle : Bool
  DoNotInspectCerts : Bool
  OmitHeader : Bool
  UseGoPatchPaths : Bool

/-- `jsonString`: a `nil` node renders as the literal `"null"`, otherwise
the node is serialized by the external compact-JSON serializer. -/
def jsonString (ext : Externals) (node : Option YamlNode) : Except String String :=
  match node with
  | none => .ok "null"
  | some n => ext.toCompactJSON n

/-- The Go field access `node.Value` through a possibly-nil pointer.  Each
use site below is reached only when the node is present (a `nil` there
would be a Go runtime panic, which never happens because the dispatching
type checks already ruled `nil` out). -/
def optValue (node : Option YamlNode) : String :=
  match node with
  | none => ""
  | some n => n.value

/-- One character of Go `encoding/json` string escaping (HTML escaping on,
as in `json.Marshal`): quote, backslash, the named control escapes, other
control characters as `\u00XX`, the HTML characters and the Unicode line
separators as `\uXXXX`, every other character verbatim. -/
def goJSONEscapeChar (c : Char) : String :=
  if c == '"' then "\\\""
  else if c == '\\' then "\\\\"
  else if c == '\n' then "\\n"
  else if c == '\r' then "\\r"
  else if c == '\t' then "\\t"
  else if c.toNat < 0x20 then
    let hexDigit := fun (n : Nat) => String.mk ["0123456789abcdef".toList.getD n '0']
    "\\u00" ++ hexDigit (c.toNat / 16) ++ hexDigit (c.toNat % 16)
  else if c == '<' then "\\u003c"
  else if c == '>' then "\\u003e"
  else if c == '&' then "\\u0026"
  else if c.toNat == 0x2028 then "\\u2028"
  else if c.toNat == 0x2029 then "\\u2029"
  else String.mk [c]

/-- Go `encoding/json` encoding of one string value. -/
def goJSONQuote (s : String) : String :=
  "\"" ++ String.join (s.data.map goJSONEscapeChar) ++ "\""

/-- Go `json.Marshal` of a non-nil `[]string` (it cannot fail). -/
def goMarshalStringList (l : List String) : String :=
  "[" ++ String.intercalate "," (l.map goJSONQuote) ++ "]"

/-- The element loop of `asJSONArray`: each entry contributes its raw
`Value`, falling back to `jsonString` when the `Value` is empty; the first
serialization error aborts. -/
def asJSONArrayTexts (ext : Externals) : List YamlNode → Except String (List String)
  | [] => .ok []
  | entry :: rest =>
    match (if entry.value == "" then jsonString ext (some entry) else .ok entry.value) with
    | .error e => .error e
    | .ok s =>
      match asJSONArrayTexts ext rest with
      | .error e => .error e
      | .ok restTexts => .ok (s :: restTexts)

/-- `asJSONArray`: the per-element texts of a node's content, marshalled as
a JSON array of strings. -/
def asJSONArray (ext : Externals) (sequenceNode : YamlNode) : Except String String :=
  (asJSONArrayTexts ext sequenceNode.content).map goMarshalStringList

/-- `generateJSONDetailOutputModification`: dispatch on the human-readable
types of `From` and `To` — raw string values for a string/string pair, hex
dumps of the base64-decoded payloads for a binary/binary pair (an error on
either side aborts), compact serialization of both sides otherwise. -/
def generateJSONDetailOutputModification (ext : Externals) (detail : Detail) :
    Except String JSONDiffDetail :=
  let fromType := humanReadableType detail.From
  let toType := humanReadableType detail.To
  if fromType == "string" && toType == "string" then
    .ok { Kind := detail.Kind.str, Addition := optValue detail.To, Removal := optValue detail.From }
  else if fromType == "binary" && toType == "binary" then
    match ext.base64Decode (optValue detail.From) with
    | .error e => .error e
    | .ok fromBytes =>
      match ext.base64Decode (optValue detail.To) with
      | .error e => .error e
      | .ok toBytes =>
        .ok { Kind := detail.Kind.str, Addition := ext.hexDump toBytes,
              Removal := ext.hexDump fromBytes }
  else
    match jsonString ext detail.From with
    | .error e => .error e
    | .ok fromText =>
      match jsonString ext detail.To with
      | .error e => .error e
      | .ok toText =>
        .ok { Kind := detail.Kind.str, Addition := toText, Removal := fromText }

/-- `generateJSONDetailOutputOrderchange`: only a sequence `From` node is
rendered (both orderings as JSON arrays of element texts); any other node
kind leaves both fields empty without error.  The source dereferences
`detail.From` (and, in the sequence arm, `detail.To`) unconditionally, so a
`nil` node there is a Go runtime panic, modelled as an error value. -/
def generateJSONDetailOutputOrderchange (ext : Externals) (detail : Detail) :
    Except String JSONDiffDetail :=
  let jsonDetail : JSONDiffDetail := { Kind := detail.Kind.str, Addition := "", Removal := "" }
  match detail.From with
  | none => .error "runtime error: invalid memory address or nil pointer dereference"
  | some fromNode =>
    match fromNode.kind with
    | .sequenceNode =>
      match detail.To with
      | none => .error "runtime error: invalid memory address or nil pointer dereference"
      | some toNode =>
        match asJSONArray ext fromNode with
        | .error e => .error e
        | .ok fromText =>
          match asJSONArray ext toNode with
          | .error e => .error e
          | .ok toText => .ok { jsonDetail with Addition := toText, Removal := fromText }
    | _ => .ok jsonDetail

/-- `generateJSONDetailOutput`: dispatch on the detail kind; any kind
outside the closed set is an "unsupported detail type" error. -/
def generateJSONDetailOutput (ext : Externals) (detail : Detail) :
    Except String JSONDiffDetail :=
  match detail.Kind with
  | .addition =>
    match jsonString ext detail.To with
    | .error e => .error e
    | .ok s => .ok { Kind := DetailKind.addition.str, Addition := s, Removal := "" }
  | .removal =>
    match jsonString ext detail.From with
    | .error e => .error e
    | .ok s => .ok { Kind := DetailKind.removal.str, Addition := "", Removal := s }
  | .modification => generateJSONDetailOutputModification ext detail
  | .orderchange => generateJSONDetailOutputOrderchange ext detail
  | .unsupported c => .error ("unsupported detail type " ++ String.mk [c])

/-- The detail loop of `generateJSONDiffOutput`: render every detail in
order, the first error aborting the whole list. -/
def generateJSONDetailOutputs (ext : Externals) : List Detail → Except String (List JSONDiffDetail)
  | [] => .ok []
  | detail :: rest =>
    match generateJSONDetailOutput ext detail with
    | .error e => .error e
    | .ok out =>
      match generateJSONDetailOutputs ext rest with
      | .error e => .error e
      | .ok outs => .ok (out :: outs)

/-- `generateJSONDiffOutput`: render every detail of a diff in order (the
first error aborts) and pair them with the rendered path string. -/
def generateJSONDiffOutput (ext : Externals) (diff : Diff) (useGoPatchPaths : Bool)
    (showPathRoot : Bool) : Except String JSONDiff :=
  match generateJSONDetailOutputs ext diff.Details with
  | .error e => .error e
  | .ok details =>
    .ok { Path := ext.pathToStr diff.Path useGoPatchPaths showPathRoot, Details := details }

/-- The diff loop of `GenReport`: render every diff in order, the first
error aborting the whole list. -/
def generateJSONDiffOutputs (ext : Externals) (useGoPatchPaths showPathRoot : Bool) :
    List Diff → Except String (List JSONDiff)
  | [] => .ok []
  | diff :: rest =>
    match generateJSONDiffOutput ext diff useGoPatchPaths showPathRoot with
    | .error e => .error e
    | .ok out =>
      match generateJSONDiffOutputs ext useGoPatchPaths showPathRoot rest with
      | .error e => .error e
      | .ok outs => .ok (out :: outs)

/-- `GenReport`: render every diff in order (the first error aborts), show
the document index in paths only when the `From` side holds more than one
document, and count the diffs in the summary. -/
def GenReport (ext : Externals) (report : JSONReport) : Except String JSONReportSpec :=
  let showPathRoot := decide (report.toReport.From.Documents.length > 1)
  match generateJSONDiffOutputs ext report.UseGoPatchPaths showPathRoot report.toReport.Diffs with
  | .error e => .error e
  | .ok diffs =>
    .ok { Summary := { Changes := report.toReport.Diffs.length }, Differences := diffs }

/-- Go `json.Marshal` of one `JSONDiffDetail`: `kind` always, `addition`
and `removal` only when non-empty (`omitempty`). -/
def marshalDetail (d : JSONDiffDetail) : String :=
  "\x7b\"kind\":" ++ goJSONQuote d.Kind
    ++ (if d.Addition == "" then "" else ",\"addition\":" ++ goJSONQuote d.Addition)
    ++ (if d.Removal == "" then "" else ",\"removal\":" ++ goJSONQuote d.Removal)
    ++ "\x7d"

/-- Go `json.Marshal` of one `JSONDiff` (both fields always present). -/
def marshalDiff (d : JSONDiff) : String :=
  "\x7b\"path\":" ++ goJSONQuote d.Path ++ ",\"details\":["
    ++ String.intercalate "," (d.Details.map marshalDetail) ++ "]\x7d"

/-- Go `json.Marshal` of the report document: the summary always, the
`differences` array only when non-empty (`omitempty`). -/
def marshalReportSpec (s : JSONReportSpec) : String :=
  "\x7b\"summary\":\x7b\"changes\":" ++ toString s.Summary.Changes ++ "\x7d"
    ++ (if s.Differences.isEmpty then ""
        else ",\"differences\":[" ++ String.intercalate "," (s.Differences.map marshalDiff) ++ "]")
    ++ "\x7d"

/-- UTF-8 encoding of one code point as bytes (Go strings are byte slices;
`bufio` counts bytes). -/
def utf8EncodeChar (n : Nat) : List Nat :=
  if n < 0x80 then [n]
  else if n < 0x800 then [0xC0 + n / 64, 0x80 + n % 64]
  else if n < 0x10000 then [0xE0 + n / 4096, 0x80 + (n / 64) % 64, 0x80 + n % 64]
  else [0xF0 + n / 262144, 0x80 + (n / 4096) % 64, 0x80 + (n / 64) % 64, 0x80 + n % 64]

/-- The UTF-8 bytes of a string. -/
def utf8Bytes (s : String) : List Nat :=
  s.data.foldr (fun c acc => utf8EncodeChar c.toNat ++ acc) []

/-- `bufio.Writer.WriteString` on a fresh writer (buffer size 4096,
initially empty): while more than 4096 bytes remain, a full 4096-byte chunk
is flushed to the sink — a sink error aborts and is returned — and the
remainder (at most 4096 bytes) stays buffered with no error.  Returns the
final buffer, the list of attempted sink writes and the error, if any. -/
def bufWriteChunks (sink : List Nat → Option String) (s : List Nat)
    (calls : List (List Nat)) : List Nat × List (List Nat) × Option String :=
  if _h : s.length > 4096 then
    let chunk := s.take 4096
    match sink chunk with
    | some e => ([], calls ++ [chunk], some e)
    | none => bufWriteChunks sink (s.drop 4096) (calls ++ [chunk])
  else
    (s, calls, none)
termination_by s.length
decreasing_by simp only [List.length_drop]; omega

/-- `WriteReport`: render the report, marshal it and write it through a
fresh `bufio` writer; `defer writer.Flush()` flushes whatever remains
buffered before returning, but its error result is discarded.  The sink is
the external `io.Writer`; the second component records every write
attempted on it. -/
def WriteReport (ext : Externals) (sink : List Nat → Option String) (report : JSONReport) :
    Except String Unit × List (List Nat) :=
  match GenReport ext report with
  | .error e => (.error e, [])
  | .ok spec =>
    let b := utf8Bytes (marshalReportSpec spec)
    match bufWriteChunks sink b [] with
    | (_, calls, some e) => (.error e, calls)
    | (buffered, calls, none) =>
      if buffered.isEmpty then (.ok (), calls)
      else (.ok (), calls ++ [buffered])

/-! ## Report filter (source: the `Report.filter` family) -/

/-- `Report.filter`: copies the `From`/`To` references and keeps, by
appending to an initially empty slice, exactly the diffs whose path
satisfies the predicate (the Go `for` loop with `append`). -/
def Report.filter (r : Report) (hasPath : Option PathT → Bool) : Report :=
  { From := r.From
    To := r.To
    Diffs := r.Diffs.foldl (fun acc diff => if hasPath diff.Path then acc ++ [diff] else acc) [] }

/-- `Report.Filter`: keep only diffs whose path string equals the string of
some parsed input path.  `parse` stands for the external
`ytbx.ParsePathStringUnsafe`; a parse error makes that input silently never
match, mirroring the `err == nil && …` guard in the source. -/
def Report.Filter (r : Report) (parse : String → Except String PathT) (paths : List String) :
    Report :=
  if paths.isEmpty then r
  else
    r.filter fun filterPath =>
      paths.any fun pathString =>
        match parse pathString, filterPath with
        | .ok path, some fp => path.str == fp.str
        | _, _ => false

/-- Go `strings.HasPrefix s pre` over the characters of the strings. -/
def goHasPrefix (s pre : String) : Bool := pre.data.isPrefixOf s.data

/-- `isGoPath`: the input path must use the slash-delimited Go Patch syntax. -/
def isGoPath (p : String) : Bool := goHasPrefix p "/"

/-- The validation loop of `Report.Exclude`: each input must be a Go Patch
path and must parse; the first offending input aborts with its error, and
on success the canonical strings of the parsed paths are collected. -/
def excludeValidate (parse : String → Except String PathT) : List String → Except String (List String)
  | [] => .ok []
  | pathString :: rest =>
    if !isGoPath pathString then
      .error ("exclude path should be a Go Patch, but got " ++ pathString)
    else
      match parse pathString with
      | .error e => .error e
      | .ok path => (excludeValidate parse rest).map (fun ps => path.str :: ps)

/-- `Report.Exclude`: validate all inputs first (returning the original
report alongside the first error), then drop every diff whose path string
starts with one of the validated prefixes.  The `err == nil` guard inside
the source's closure is always true at that point (a failed parse has
already returned), so it is not repeated here. -/
def Report.Exclude (r : Report) (parse : String → Except String PathT) (paths : List String) :
    Report × Option String :=
  if paths.isEmpty then (r, none)
  else
    match excludeValidate parse paths with
    | .error e => (r, some e)
    | .ok ps =>
      (r.filter fun filterPath =>
        !(ps.any fun pathString =>
          match filterPath with
          | some fp => goHasPrefix fp.str pathString
          | none => false), none)

/-- `Report.FilterRegexp`: keep only diffs whose path string matches some
pattern.  `matchString pat s` stands for the external Go
`regexp.MustCompile(pat).MatchString(s)`; pattern compilation (which panics
on an invalid pattern) is outside this repository and modelled as total. -/
def Report.FilterRegexp (r : Report) (matchString : String → String → Bool)
    (pattern : List String) : Report :=
  if pattern.isEmpty then r
  else
    r.filter fun filterPath =>
      pattern.any fun pat =>
        match filterPath with
        | some fp => matchString pat fp.str
        | none => false

/-- `Report.ExcludeRegexp`: keep only diffs whose path string matches none
of the patterns. -/
def Report.ExcludeRegexp (r : Report) (matchString : String → String → Bool)
    (pattern : List String) : Report :=
  if pattern.isEmpty then r
  else
    r.filter fun filterPath =>
      !(pattern.any fun pat =>
        match filterPath with
        | some fp => matchString pat fp.str
        | none => false)

/-! ## Concrete instances of the external collaborators, used to evaluate
the definitions on closed inputs -/

/-- A sample path parser: accepts exactly the slash-led strings, keeping
the input as the canonical form. -/
def parseW (s : String) : Except String PathT :=
  if goHasPrefix s "/" then .ok ⟨s⟩ else .error ("failed to parse path " ++ s)

/-- A sample regular-expression matcher. -/
def matchW (pat s : String) : Bool := goHasPrefix s pat

/-- A sample instance of the external collaborators. -/
def extW : Externals :=
  { toCompactJSON := fun n =>
      if n.kind == YamlKind.mappingNode then .ok "\x7b\x7d" else .ok n.value
    base64Decode := fun s => if s == "AA==" then .ok [0] else .error ("illegal base64 data " ++ s)
    hexDump := fun bytes => "hexdump of " ++ toString bytes.length ++ " bytes"
    pathToStr := fun p _ _ =>
      match p with
      | some fp => fp.str
      | none => "(root level)" }

/-- A scalar string node. -/
def strNode (v : String) : YamlNode := .mk .scalarNode "!!str" v []

/-- A scalar binary node holding base64 text. -/
def binNode (v : String) : YamlNode := .mk .scalarNode "!!binary" v []

/-- An empty mapping node (its `Value` is the empty string). -/
def mapNode : YamlNode := .mk .mappingNode "!!map" "" []

/-- A diff with a `nil` path. -/
def dNil : Diff := { Path := none, Details := [] }

/-- A one-diff report whose single diff has a `nil` path. -/
def rNil : Report := { From := ⟨[]⟩, To := ⟨[]⟩, Diffs := [dNil] }

/-- A report with no diffs, wrapped for rendering. -/
def emptyJSONReport : JSONReport :=
  { toReport := { From := ⟨[]⟩, To := ⟨[]⟩, Diffs := [] }
    NoTableStyle := false, DoNotInspectCerts := false, OmitHeader := false
    UseGoPatchPaths := false }

/-- A sink on which every write fails. -/
def failSink (_ : List Nat) : Option String := some "write failure"

/-- A sink on which every write succeeds. -/
def okSink (_ : List Nat) : Option String := none

/-! ## Shared lemmas -/

/-- The append-style accumulation loop of `Report.filter` computes the
standard list filter. -/
theorem foldl_append_eq_filter {α : Type} (p : α → Bool) (l : List α) (acc : List α) :
    l.foldl (fun acc d => if p d then acc ++ [d] else acc) acc = acc ++ l.filter p := by
  induction l generalizing acc with
  | nil => simp
  | cons x xs ih =>
    by_cases hx : p x
    · simp [List.filter_cons, hx, ih]
    · simp [List.filter_cons, hx, ih]

/-- The diffs of a filtered report are the filtered diffs. -/
theorem Report.filter_Diffs (r : Report) (hasPath : Option PathT → Bool) :
    (r.filter hasPath).Diffs = r.Diffs.filter (fun d => hasPath d.Path) := by
  simpa using foldl_append_eq_filter (fun d => hasPath d.Path) r.Diffs []

/-! ## Claims -/

/-- C1: for every report and every predicate over paths, the internal
`filter` primitive keeps the `From` and `To` document references unchanged
and its diffs are exactly the subsequence of the original diffs whose path
satisfies the predicate — the standard list filter, which is a sublist of
the original (same elements unmutated, original relative order). -/
theorem filter_copies_docs_and_keeps_matching_subsequence
    (r : Report) (hasPath : Option PathT → Bool) :
    (r.filter hasPath).From = r.From ∧ (r.filter hasPath).To = r.To ∧
    (r.filter hasPath).Diffs = r.Diffs.filter (fun d => hasPath d.Path) ∧
    List.Sublist (r.filter hasPath).Diffs r.Diffs := by
  refine ⟨rfl, rfl, Report.filter_Diffs r hasPath, ?_⟩
  rw [Report.filter_Diffs r hasPath]
  exact List.filter_sublist r.Diffs

/-- C4: calling `Filter`, `Exclude`, `FilterRegexp` or `ExcludeRegexp` with
an empty argument list returns the report unchanged, and `Exclude`
additionally reports no error. -/
theorem empty_argument_lists_are_noops (r : Report)
    (parse : String → Except String PathT) (matchString : String → String → Bool) :
    r.Filter parse [] = r ∧ r.Exclude parse [] = (r, none) ∧
    r.FilterRegexp matchString [] = r ∧ r.ExcludeRegexp matchString [] = r :=
  ⟨rfl, rfl, rfl, rfl⟩

/-- C2: a diff with a `nil` path never matches an inclusion predicate, so
`Filter` and `FilterRegexp` drop it whenever they filter at all (a
non-empty argument list), and it never matches an exclusion predicate, so
`Exclude` and `ExcludeRegexp` always retain it. -/
theorem nil_path_dropped_by_inclusion_retained_by_exclusion
    (r : Report) (parse : String → Except String PathT) (matchString : String → String → Bool)
    (paths pats : List String) (d : Diff) (hmem : d ∈ r.Diffs) (hnil : d.Path = none) :
    (paths ≠ [] → d ∉ (r.Filter parse paths).Diffs) ∧
    (pats ≠ [] → d ∉ (r.FilterRegexp matchString pats).Diffs) ∧
    d ∈ (r.Exclude parse paths).1.Diffs ∧
    d ∈ (r.ExcludeRegexp matchString pats).Diffs := by
  refine ⟨?_, ?_, ?_, ?_⟩
  · intro hne
    have hie : paths.isEmpty = false := by
      cases paths with
      | nil => exact absurd rfl hne
      | cons a as => rfl
    rw [Report.Filter, if_neg (by simp [hie]), Report.filter_Diffs]
    rw [List.mem_filter]
    rintro ⟨-, hpred⟩
    simp only [hnil] at hpred
    rw [List.any_eq_true] at hpred
    obtain ⟨q, -, hq⟩ := hpred
    cases hp : parse q <;> rw [hp] at hq <;> simp at hq
  · intro hne
    have hie : pats.isEmpty = false := by
      cases pats with
      | nil => exact absurd rfl hne
      | cons a as => rfl
    rw [Report.FilterRegexp, if_neg (by simp [hie]), Report.filter_Diffs]
    rw [List.mem_filter]
    rintro ⟨-, hpred⟩
    simp only [hnil] at hpred
    simp at hpred
  · by_cases hie : paths.isEmpty
    · rw [Report.Exclude, if_pos (by simpa using hie)]
      exact hmem
    · rw [Report.Exclude, if_neg (by simpa using hie)]
      cases hv : excludeValidate parse paths with
      | error e => exact hmem
      | ok ps =>
        simp only [Report.filter_Diffs, List.mem_filter]
        refine ⟨hmem, ?_⟩
        simp [hnil]
  · by_cases hie : pats.isEmpty
    · rw [Report.ExcludeRegexp, if_pos (by simpa using hie)]
      exact hmem
    · rw [Report.ExcludeRegexp, if_neg (by simpa using hie), Report.filter_Diffs]
      rw [List.mem_filter]
      refine ⟨hmem, ?_⟩
      simp [hnil]

/-- Witness for C2 on concrete data: the `nil`-path diff is dropped by the
inclusion operations and retained by the exclusion operations. -/
theorem nil_path_dropped_retained_witness :
    (dNil ∉ (rNil.Filter parseW ["/a"]).Diffs) ∧
    (dNil ∉ (rNil.FilterRegexp matchW ["x"]).Diffs) ∧
    dNil ∈ (rNil.Exclude parseW ["/a"]).1.Diffs ∧
    dNil ∈ (rNil.ExcludeRegexp matchW ["x"]).Diffs := by
  have h := nil_path_dropped_by_inclusion_retained_by_exclusion rNil parseW matchW
    ["/a"] ["x"] dNil (by simp [rNil]) rfl
  exact ⟨h.1 (by simp), h.2.1 (by simp), h.2.2.1, h.2.2.2⟩

/-- The validation loop of `Exclude` fails whenever some input path is not
in the Go Patch syntax or fails to parse. -/
theorem excludeValidate_error_of_bad (parse : String → Except String PathT)
    (paths : List String)
    (h : ∃ p ∈ paths, isGoPath p = false ∨ ∃ e, parse p = .error e) :
    ∃ e, excludeValidate parse paths = .error e := by
  induction paths with
  | nil => simp at h
  | cons q rest ih =>
    by_cases hq : isGoPath q
    · cases hp : parse q with
      | error e => exact ⟨e, by simp [excludeValidate, hq, hp]⟩
      | ok path =>
        obtain ⟨p, hpmem, hbad⟩ := h
        rcases List.mem_cons.mp hpmem with heq | hrest
        · subst heq
          rcases hbad with h1 | ⟨e, h2⟩
          · rw [hq] at h1; cases h1
          · rw [hp] at h2; cases h2
        · obtain ⟨e, hrec⟩ := ih ⟨p, hrest, hbad⟩
          exact ⟨e, by simp [excludeValidate, hq, hp, hrec, Except.map]⟩
    · refine ⟨"exclude path should be a Go Patch, but got " ++ q, ?_⟩
      simp only [Bool.not_eq_true] at hq
      simp [excludeValidate, hq]

/-- C3: whenever some input path is not in the slash-delimited Go Patch
syntax or fails to parse, `Exclude` returns the original report together
with an error — no filtering is applied. -/
theorem exclude_returns_original_and_error_on_bad_input (r : Report)
    (parse : String → Except String PathT) (paths : List String)
    (h : ∃ p ∈ paths, isGoPath p = false ∨ ∃ e, parse p = .error e) :
    ∃ e, r.Exclude parse paths = (r, some e) := by
  obtain ⟨e, hv⟩ := excludeValidate_error_of_bad parse paths h
  have hie : paths.isEmpty = false := by
    obtain ⟨p, hp, -⟩ := h
    cases paths with
    | nil => cases hp
    | cons a as => rfl
  exact ⟨e, by rw [Report.Exclude, if_neg (by simp [hie]), hv]⟩

/-- Witness for C3 on concrete data: a non-slash path makes `Exclude`
return the original report and an error. -/
theorem exclude_error_witness :
    ∃ e, rNil.Exclude parseW ["not/a/slash/path"] = (rNil, some e) :=
  exclude_returns_original_and_error_on_bad_input rNil parseW ["not/a/slash/path"]
    ⟨"not/a/slash/path", by simp, Or.inl (by decide)⟩

/-- C5: a modification between two nodes of human-readable type `string`
renders the raw string values directly — addition is `To`'s value, removal
is `From`'s value — under the modification kind tag. -/
theorem modification_string_string_uses_raw_values (ext : Externals) (detail : Detail)
    (f t : YamlNode) (hk : detail.Kind = .modification)
    (hf : detail.From = some f) (ht : detail.To = some t)
    (hfs : humanReadableType detail.From = "string")
    (hts : humanReadableType detail.To = "string") :
    generateJSONDetailOutput ext detail =
      .ok { Kind := DetailKind.modification.str, Addition := t.value, Removal := f.value } := by
  obtain ⟨k, fr, tn⟩ := detail
  simp only at hk hf ht
  subst hk hf ht
  simp only [generateJSONDetailOutput, generateJSONDetailOutputModification] at *
  rw [hfs, hts]
  simp [optValue]

/-- Witness for C5 on concrete data: modifying the string `"a"` into the
string `"b"` renders kind `~`, addition `b`, removal `a`. -/
theorem modification_string_string_witness :
    generateJSONDetailOutput extW
        { Kind := .modification, From := some (strNode "a"), To := some (strNode "b") } =
      .ok { Kind := "~", Addition := "b", Removal := "a" } :=
  modification_string_string_uses_raw_values extW _ (strNode "a") (strNode "b")
    rfl rfl rfl (by decide) (by decide)

/-- C6: a modification between two nodes of human-readable type `binary`
base64-decodes both values and renders hex dumps (addition from `To`,
removal from `From`); a decode failure on either side — even when the
other side decodes — aborts the whole render with that error. -/
theorem modification_binary_binary_hexdump_or_abort (ext : Externals) (detail : Detail)
    (hk : detail.Kind = .modification)
    (hfb : humanReadableType detail.From = "binary")
    (htb : humanReadableType detail.To = "binary") :
    (∀ fromBytes toBytes,
        ext.base64Decode (optValue detail.From) = .ok fromBytes →
        ext.base64Decode (optValue detail.To) = .ok toBytes →
        generateJSONDetailOutput ext detail =
          .ok { Kind := DetailKind.modification.str, Addition := ext.hexDump toBytes,
                Removal := ext.hexDump fromBytes }) ∧
    (∀ e, ext.base64Decode (optValue detail.From) = .error e →
        generateJSONDetailOutput ext detail = .error e) ∧
    (∀ fromBytes e,
        ext.base64Decode (optValue detail.From) = .ok fromBytes →
        ext.base64Decode (optValue detail.To) = .error e →
        generateJSONDetailOutput ext detail = .error e) := by
  obtain ⟨k, fr, tn⟩ := detail
  simp only at hk hfb htb
  subst hk
  refine ⟨?_, ?_, ?_⟩
  · intro fromBytes toBytes hfd htd
    simp only [generateJSONDetailOutput, generateJSONDetailOutputModification]
    rw [hfb, htb]
    simp only at hfd htd
    simp [hfd, htd]
  · intro e hfd
    simp only [generateJSONDetailOutput, generateJSONDetailOutputModification]
    rw [hfb, htb]
    simp only at hfd
    simp [hfd]
  · intro fromBytes e hfd htd
    simp only [generateJSONDetailOutput, generateJSONDetailOutputModification]
    rw [hfb, htb]
    simp only at hfd htd
    simp [hfd, htd]

/-- Witness for C6 on concrete data: two binary nodes decode and hex-dump,
and an undecodable side aborts the render with the decoder's error. -/
theorem modification_binary_binary_witness :
    generateJSONDetailOutput extW
        { Kind := .modification, From := some (binNode "AA=="), To := some (binNode "AA==") } =
      .ok { Kind := "~", Addition := "hexdump of 1 bytes", Removal := "hexdump of 1 bytes" } ∧
    generateJSONDetailOutput extW
        { Kind := .modification, From := some (binNode "AA=="), To := some (binNode "*bad*") } =
      .error "illegal base64 data *bad*" := by
  constructor
  · exact (modification_binary_binary_hexdump_or_abort extW
      { Kind := .modification, From := some (binNode "AA=="), To := some (binNode "AA==") }
      rfl (by decide) (by decide)).1 [0] [0] rfl rfl
  · exact (modification_binary_binary_hexdump_or_abort extW
      { Kind := .modification, From := some (binNode "AA=="), To := some (binNode "*bad*") }
      rfl (by decide) (by decide)).2.2 [0] "illegal base64 data *bad*" rfl rfl

/-- C7: an order change whose `From` node is a sequence renders the `From`-
and `To`-ordered element texts as compact JSON arrays of strings (removal
from `From`, addition from `To`); any other `From` node kind yields a
detail with neither field populated and no error. -/
theorem orderchange_sequence_rendering_and_non_sequence_noop (ext : Externals)
    (detail : Detail) (f : YamlNode) (hk : detail.Kind = .orderchange)
    (hf : detail.From = some f) :
    (∀ t fromTexts toTexts, f.kind = .sequenceNode → detail.To = some t →
        asJSONArrayTexts ext f.content = .ok fromTexts →
        asJSONArrayTexts ext t.content = .ok toTexts →
        generateJSONDetailOutput ext detail =
          .ok { Kind := DetailKind.orderchange.str,
                Addition := goMarshalStringList toTexts,
                Removal := goMarshalStringList fromTexts }) ∧
    (f.kind ≠ .sequenceNode →
        generateJSONDetailOutput ext detail =
          .ok { Kind := DetailKind.orderchange.str, Addition := "", Removal := "" }) := by
  obtain ⟨k, fr, tn⟩ := detail
  simp only at hk hf
  subst hk hf
  obtain ⟨fk, ftag, fv, fc⟩ := f
  constructor
  · intro t fromTexts toTexts hseq ht hft htt
    simp only at ht
    subst ht
    simp only [YamlNode.kind] at hseq
    subst hseq
    obtain ⟨tk, ttag, tv, tc⟩ := t
    simp only [YamlNode.content] at hft htt
    simp [generateJSONDetailOutput, generateJSONDetailOutputOrderchange, asJSONArray,
          YamlNode.kind, YamlNode.content, hft, htt, Except.map]
  · intro hnseq
    simp only [YamlNode.kind] at hnseq
    cases fk with
    | sequenceNode => exact absurd rfl hnseq
    | documentNode => rfl
    | mappingNode => rfl
    | scalarNode => rfl
    | aliasNode => rfl

/-- Witness for C7 on concrete data: reordering the sequence `[x, y, z]`
into `[z, x, y]` renders the two JSON arrays, and an order change on a
scalar node renders the empty detail without error. -/
theorem orderchange_witness :
    generateJSONDetailOutput extW
        { Kind := .orderchange,
          From := some (.mk .sequenceNode "!!seq" "" [strNode "x", strNode "y", strNode "z"]),
          To := some (.mk .sequenceNode "!!seq" "" [strNode "z", strNode "x", strNode "y"]) } =
      .ok { Kind := "->", Addition := "[\"z\",\"x\",\"y\"]", Removal := "[\"x\",\"y\",\"z\"]" } ∧
    generateJSONDetailOutput extW
        { Kind := .orderchange, From := some (strNode "x"), To := some (strNode "y") } =
      .ok { Kind := "->", Addition := "", Removal := "" } := by
  constructor
  · have h := (orderchange_sequence_rendering_and_non_sequence_noop extW
      { Kind := .orderchange,
        From := some (.mk .sequenceNode "!!seq" "" [strNode "x", strNode "y", strNode "z"]),
        To := some (.mk .sequenceNode "!!seq" "" [strNode "z", strNode "x", strNode "y"]) }
      (.mk .sequenceNode "!!seq" "" [strNode "x", strNode "y", strNode "z"]) rfl rfl).1
      (.mk .sequenceNode "!!seq" "" [strNode "z", strNode "x", strNode "y"])
      ["x", "y", "z"] ["z", "x", "y"] rfl rfl rfl rfl
    rw [h]
    rfl
  · exact (orderchange_sequence_rendering_and_non_sequence_noop extW
      { Kind := .orderchange, From := some (strNode "x"), To := some (strNode "y") }
      (strNode "x") rfl rfl).2 (by decide)

/-- C8: an addition detail populates only the addition field (the removal
field stays empty and is omitted by `omitempty` when marshalled), its value
being the compact serialization of `To`; an absent `To` renders as the
4-character literal `null`. -/
theorem addition_detail_populates_only_addition (ext : Externals) (detail : Detail)
    (hk : detail.Kind = .addition) :
    (∀ s, jsonString ext detail.To = .ok s →
        generateJSONDetailOutput ext detail =
          .ok { Kind := DetailKind.addition.str, Addition := s, Removal := "" }) ∧
    (detail.To = none →
        generateJSONDetailOutput ext detail =
          .ok { Kind := DetailKind.addition.str, Addition := "null", Removal := "" }) ∧
    marshalDetail { Kind := DetailKind.addition.str, Addition := "null", Removal := "" } =
      "\x7b\"kind\":\"+\",\"addition\":\"null\"\x7d" := by
  obtain ⟨k, fr, tn⟩ := detail
  simp only at hk
  subst hk
  refine ⟨?_, ?_, by decide⟩
  · intro s hs
    simp only [generateJSONDetailOutput]
    simp only at hs
    rw [hs]
  · intro hto
    simp only at hto
    subst hto
    rfl

/-- Witness for C8 on concrete data: an addition of an absent node renders
kind `+` with addition `null` and an empty removal field. -/
theorem addition_detail_witness :
    generateJSONDetailOutput extW { Kind := .addition, From := none, To := none } =
      .ok { Kind := "+", Addition := "null", Removal := "" } :=
  (addition_detail_populates_only_addition extW
    { Kind := .addition, From := none, To := none } rfl).2.1 rfl

/-- C10: in the order-change element loop, an element's raw scalar value is
used exactly when its `Value` string is non-empty; every element whose
`Value` is empty (empty-string scalars, mappings, …) contributes its
compact serialization instead, never the empty raw value. -/
theorem asJSONArray_empty_value_falls_back_to_serialization (ext : Externals)
    (l : List YamlNode) (texts : List String)
    (h : asJSONArrayTexts ext l = .ok texts) :
    List.Forall₂ (fun entry text =>
      if entry.value = "" then jsonString ext (some entry) = Except.ok text
      else text = entry.value) l texts := by
  induction l generalizing texts with
  | nil =>
    simp only [asJSONArrayTexts] at h
    cases h
    exact List.Forall₂.nil
  | cons entry rest ih =>
    simp only [asJSONArrayTexts] at h
    by_cases hv : entry.value = ""
    · rw [if_pos (by simp [hv])] at h
      cases hjs : jsonString ext (some entry) with
      | error e => rw [hjs] at h; cases h
      | ok s =>
        rw [hjs] at h
        cases hrest : asJSONArrayTexts ext rest with
        | error e => rw [hrest] at h; cases h
        | ok restTexts =>
          rw [hrest] at h
          cases h
          exact List.Forall₂.cons (by rw [if_pos hv]; exact hjs) (ih restTexts hrest)
    · rw [if_neg (by simp [hv])] at h
      cases hrest : asJSONArrayTexts ext rest with
      | error e => rw [hrest] at h; cases h
      | ok restTexts =>
        rw [hrest] at h
        cases h
        exact List.Forall₂.cons (by rw [if_neg hv]) (ih restTexts hrest)

/-- Witness for C10 on concrete data: in a sequence holding a non-empty
scalar and an empty mapping, the mapping's entry is its serialization. -/
theorem asJSONArray_empty_value_witness :
    List.Forall₂ (fun entry text =>
      if entry.value = "" then jsonString extW (some entry) = Except.ok text
      else text = entry.value) [strNode "x", mapNode] ["x", "\x7b\x7d"] :=
  asJSONArray_empty_value_falls_back_to_serialization extW [strNode "x", mapNode]
    ["x", "\x7b\x7d"] rfl

/-- The UTF-8 encoding of a code point is never empty. -/
theorem utf8EncodeChar_ne_nil (n : Nat) : utf8EncodeChar n ≠ [] := by
  unfold utf8EncodeChar
  split
  · simp
  · split
    · simp
    · split <;> simp

/-- A string with at least one character has at least one UTF-8 byte. -/
theorem utf8Bytes_ne_nil (s : String) (h : s.data ≠ []) : utf8Bytes s ≠ [] := by
  unfold utf8Bytes
  cases hd : s.data with
  | nil => exact absurd hd h
  | cons c cs =>
    simp only [List.foldr_cons]
    intro hcontra
    exact utf8EncodeChar_ne_nil c.toNat (List.append_eq_nil.mp hcontra).1

/-- The marshalled report document is never the empty string. -/
theorem marshalReportSpec_data_ne_nil (s : JSONReportSpec) : (marshalReportSpec s).data ≠ [] := by
  intro h
  unfold marshalReportSpec at h
  simp only [String.data_append, List.append_eq_nil] at h
  have hlit : ("\x7b\"summary\":\x7b\"changes\":").data = [] := by tauto
  exact absurd hlit (by decide)

/-- Counterexample to C9 as stated: on a report whose serialized form fits
the 4096-byte buffer, with a sink on which every write fails, `WriteReport`
returns no error — the only write to the sink (the deferred flush) fails
and its error is discarded, so a write error is not propagated. -/
theorem writeReport_flush_error_counterexample :
    (WriteReport extW failSink emptyJSONReport).1 = .ok () ∧
    (WriteReport extW failSink emptyJSONReport).2 =
      [utf8Bytes "\x7b\"summary\":\x7b\"changes\":0\x7d\x7d"] ∧
    failSink (utf8Bytes "\x7b\"summary\":\x7b\"changes\":0\x7d\x7d") = some "write failure" := by
  have hchunks : bufWriteChunks failSink
      (utf8Bytes "\x7b\"summary\":\x7b\"changes\":0\x7d\x7d") [] =
      (utf8Bytes "\x7b\"summary\":\x7b\"changes\":0\x7d\x7d", [], none) := by
    rw [bufWriteChunks]
    exact dif_neg (by decide)
  have hgen : GenReport extW emptyJSONReport = .ok ⟨⟨0⟩, []⟩ := rfl
  have hm : marshalReportSpec ⟨⟨0⟩, []⟩ = "\x7b\"summary\":\x7b\"changes\":0\x7d\x7d" := rfl
  have hW : WriteReport extW failSink emptyJSONReport =
      (.ok (), [utf8Bytes "\x7b\"summary\":\x7b\"changes\":0\x7d\x7d"]) := by
    simp only [WriteReport, hgen, hm, hchunks]
    rfl
  exact ⟨by rw [hW], by rw [hW], rfl⟩

/-- C9 (amended): `WriteReport` serializes the generated report document
and writes it through a fresh 4096-byte buffered writer that is flushed
before returning.  Generation errors are propagated; a sink error raised
while draining full buffer chunks (output larger than the buffer) is
propagated unmodified; but when the whole output fits in the buffer the
only sink write is the deferred flush, whose error is discarded, and
`WriteReport` returns no error whatever the sink does. -/
theorem writeReport_buffered_write_error_semantics (ext : Externals)
    (sink : List Nat → Option String) (report : JSONReport) :
    (∀ e, GenReport ext report = .error e → WriteReport ext sink report = (.error e, [])) ∧
    (∀ spec, GenReport ext report = .ok spec →
      ((utf8Bytes (marshalReportSpec spec)).length ≤ 4096 →
        WriteReport ext sink report = (.ok (), [utf8Bytes (marshalReportSpec spec)])) ∧
      (∀ e, (utf8Bytes (marshalReportSpec spec)).length > 4096 →
        sink ((utf8Bytes (marshalReportSpec spec)).take 4096) = some e →
        WriteReport ext sink report =
          (.error e, [(utf8Bytes (marshalReportSpec spec)).take 4096]))) := by
  constructor
  · intro e hgen
    simp only [WriteReport, hgen]
  · intro spec hgen
    constructor
    · intro hle
      have hchunks : bufWriteChunks sink (utf8Bytes (marshalReportSpec spec)) [] =
          (utf8Bytes (marshalReportSpec spec), [], none) := by
        rw [bufWriteChunks]
        exact dif_neg (by omega)
      have hne : utf8Bytes (marshalReportSpec spec) ≠ [] :=
        utf8Bytes_ne_nil _ (marshalReportSpec_data_ne_nil spec)
      simp only [WriteReport, hgen, hchunks]
      rw [if_neg (by simpa [List.isEmpty_iff] using hne)]
      simp
    · intro e hgt hsink
      have hchunks : bufWriteChunks sink (utf8Bytes (marshalReportSpec spec)) [] =
          ([], [(utf8Bytes (marshalReportSpec spec)).take 4096], some e) := by
        rw [bufWriteChunks]
        rw [dif_pos hgt]
        simp only [hsink]
        simp
      simp only [WriteReport, hgen, hchunks]

/-- Witness for the amended C9 on concrete data: with a sink on which every
write succeeds, the empty report is marshalled, flushed to the sink in one
write and no error is returned. -/
theorem writeReport_semantics_witness :
    WriteReport extW okSink emptyJSONReport =
      (.ok (), [utf8Bytes "\x7b\"summary\":\x7b\"changes\":0\x7d\x7d"]) := by
  have h := ((writeReport_buffered_write_error_semantics extW okSink emptyJSONReport).2
    ⟨⟨0⟩, []⟩ rfl).1 (by decide)
  have hm : marshalReportSpec ⟨⟨0⟩, []⟩ = "\x7b\"summary\":\x7b\"changes\":0\x7d\x7d" := rfl
  rw [hm] at h
  exact h

end Dyff
